import Mathlib

/-!
Verification of `src/pyqtdeploy/builder/lib/pyqtdeploy_start.c`, the bootstrap
entry point of a pyqtdeploy-generated executable.  The C function
`pyqtdeploy_start` is shallowly embedded as an executable Lean function over an
oracle (`Env`) that decides which external runtime calls succeed; the result
records the return code, the process locale at return, the transcoded wide
argument vector, the installed `sys.path`, and a trace of the externally
observable effects.  The Python 3, non-Android path is embedded in full; the
Android (`#if defined(ANDROID)`) per-byte conversion loop and the helper
`append_strings` are embedded separately.
-/

namespace PyQtDeploy

/-- A C byte string: the bytes before the terminating NUL, each in 0..255. -/
abbrev CStr := List Nat

/-- A wide-character string: a list of code points. -/
abbrev WStr := List Nat

/-- One entry of the `struct _frozen` table: a module name (NULL for the
sentinel), a pointer to the frozen byte-code blob (NULL for the sentinel),
and its size. -/
structure FrozenEntry where
  name : Option String
  code : Option (List Nat)
  size : Nat
  deriving DecidableEq, Repr

/-- The replacement table of frozen modules (`modules` in the source, lines
58-63, Python 3 variant): the bootstrap module `_frozen_importlib`, the
application module `__main__`, and the final sentinel. -/
def modules (bootstrapBlob mainBlob : List Nat) : List FrozenEntry :=
  [⟨some "_frozen_importlib", some bootstrapBlob, bootstrapBlob.length⟩,
   ⟨some "__main__", some mainBlob, mainBlob.length⟩,
   ⟨none, none, 0⟩]

/-- The minimal `sys.path` (`minimal_path` in the source, lines 65-71);
the terminating NULL of the C array is implicit in the list model. -/
def minimal_path : List String := [":/", ":/stdlib", ":/site-packages"]

/-- Externally observable effects of `pyqtdeploy_start`, in program order. -/
inductive Event where
  | installFrozen (table : List FrozenEntry)
  | appendInittab
  | extendInittab
  | diag (msg : String)
  | setLocaleEnv
  | restoreLocale
  | setProgramName (name : WStr)
  | pyInitialize
  | sysSetArgv (args : List WStr)
  | sysSetPath (p : List String)
  | importFrozen (name : String)
  | errPrint
  | finalize
  deriving DecidableEq, Repr

/-- The oracle deciding the outcome of each external call made by
`pyqtdeploy_start`.  Allocation outcomes are indexed by argument position,
string-creation and list-append outcomes inside `append_strings` by position
in the value array. -/
structure Env where
  appendInittabOk : Bool
  extendInittabOk : Bool
  wargvMallocOk : Bool
  mbsLen : CStr → Option Nat
  argMallocOk : Nat → Bool
  mbsConv : CStr → Option WStr
  envLocale : String
  listNewOk : Bool
  minStrOk : Nat → Bool
  minAppOk : Nat → Bool
  extraStrOk : Nat → Bool
  extraAppOk : Nat → Bool
  sysSetPathOk : Bool
  addMainOk : Bool
  filenameStrOk : String → Bool
  dictSetFileOk : Bool
  importMainOk : Bool

/-- The observable outcome of one run of `pyqtdeploy_start`. -/
structure StartResult where
  ret : Nat
  finalLocale : String
  wargv : Option (List WStr)
  sysPath : Option (List String)
  trace : List Event
  deriving DecidableEq, Repr

/-- The helper `append_strings` (source lines 236-262): extend `list` with the values of
a NULL-terminated string array, one at a time.  `fStr j` is the outcome of
`PyUnicode_FromString` and `fApp j` the outcome of `PyList_Append` for the
`j`-th value.  Returns `(0, extended list)` on success and `(-1, list as
extended so far)` on the first failure. -/
def append_strings (fStr fApp : Nat → Bool) (list : List String) :
    Nat → List String → Int × List String
  | _, [] => (0, list)
  | j, v :: rest =>
    if fStr j = false then (-1, list)
    else if fApp j = false then (-1, list)
    else append_strings fStr fApp (list ++ [v]) (j + 1) rest

/-- The wide-character conversion loop of `pyqtdeploy_start` (source lines
120-164, non-Android branch), acting on `argv[i..]`: for each argument,
determine the length with `mbstowcs(NULL, arg, 0)`, allocate `len + 1` wide
characters, and convert with `mbstowcs`.  Any failure produces the diagnostic
printed by the corresponding `return 1`. -/
def convLoop (env : Env) : Nat → List CStr → Except String (List WStr)
  | _, [] => Except.ok []
  | i, arg :: rest =>
    match env.mbsLen arg with
    | none => Except.error ("Could not convert argument " ++ toString i ++ " to string\n")
    | some _ =>
      if env.argMallocOk i = false then Except.error "PyMem_Malloc() failed\n"
      else
        match env.mbsConv arg with
        | none => Except.error ("Could not convert argument " ++ toString i ++ " to string\n")
        | some w =>
          match convLoop env (i + 1) rest with
          | Except.error msg => Except.error msg
          | Except.ok ws => Except.ok (w :: ws)

/-- Source lines 197-227: install the constructed path list with
`PySys_SetObject`, set `__main__.__file__`, import the frozen `__main__`
module, and finalize.  The trace holds only this stage's own events. -/
def setPathStage (env : Env) (loc0 : String) (w_argv : List WStr) (fname : String)
    (py_path : List String) : StartResult :=
  if env.sysSetPathOk = false then
    ⟨1, loc0, some w_argv, none, [.errPrint]⟩
  else if env.addMainOk = false then
    ⟨1, loc0, some w_argv, some py_path, [.sysSetPath py_path, .errPrint]⟩
  else if env.filenameStrOk fname = false then
    ⟨1, loc0, some w_argv, some py_path, [.sysSetPath py_path, .errPrint]⟩
  else if env.dictSetFileOk = false then
    ⟨1, loc0, some w_argv, some py_path, [.sysSetPath py_path, .errPrint]⟩
  else if env.importMainOk = false then
    ⟨1, loc0, some w_argv, some py_path,
      [.sysSetPath py_path, .importFrozen "__main__", .errPrint]⟩
  else
    ⟨0, loc0, some w_argv, some py_path,
      [.sysSetPath py_path, .importFrozen "__main__", .finalize]⟩

/-- Source lines 187-195: build `sys.path` from the fixed minimal fragments
plus the optional caller-supplied fragments, then continue with
`setPathStage`.  The trace holds only this stage's own events. -/
def afterInit (env : Env) (loc0 : String) (w_argv : List WStr) (fname : String)
    (path : Option (List String)) : StartResult :=
  if env.listNewOk = false then
    ⟨1, loc0, some w_argv, none, [.errPrint]⟩
  else if (append_strings env.minStrOk env.minAppOk [] 0 minimal_path).fst < 0 then
    ⟨1, loc0, some w_argv, none, [.errPrint]⟩
  else
    match path with
    | some extra =>
      if (append_strings env.extraStrOk env.extraAppOk
            (append_strings env.minStrOk env.minAppOk [] 0 minimal_path).snd
            0 extra).fst < 0 then
        ⟨1, loc0, some w_argv, none, [.errPrint]⟩
      else
        setPathStage env loc0 w_argv fname
          (append_strings env.extraStrOk env.extraAppOk
            (append_strings env.minStrOk env.minAppOk [] 0 minimal_path).snd
            0 extra).snd
    | none =>
      setPathStage env loc0 w_argv fname
        (append_strings env.minStrOk env.minAppOk [] 0 minimal_path).snd

/-- The body of `pyqtdeploy_start` after the frozen-module table has been
installed (source lines 91-232, Python 3 non-Android path).  `loc0` is the
process locale at entry; `setlocale(LC_ALL, "")` switches it to
`env.envLocale` and the saved-locale restore switches it back. -/
def startBody (env : Env) (loc0 : String) (argv : List CStr) (py_main : WStr)
    (fname : String) (hasExt : Bool) (path : Option (List String)) : StartResult :=
  if env.appendInittabOk = false then
    ⟨1, loc0, none, none, [.diag "PyImport_AppendInittab() failed\n"]⟩
  else if hasExt && !env.extendInittabOk then
    ⟨1, loc0, none, none, [.appendInittab, .diag "PyImport_ExtendInittab() failed\n"]⟩
  else if env.wargvMallocOk = false then
    ⟨1, loc0, none, none,
      .appendInittab :: (if hasExt then [Event.extendInittab] else []) ++
        [.diag "PyMem_Malloc() failed\n"]⟩
  else
    match convLoop env 1 argv.tail with
    | Except.error msg =>
      ⟨1, env.envLocale, none, none,
        .appendInittab :: (if hasExt then [Event.extendInittab] else []) ++
          [.setLocaleEnv, .diag msg]⟩
    | Except.ok ws =>
      ⟨(afterInit env loc0 (py_main :: ws) fname path).ret,
       (afterInit env loc0 (py_main :: ws) fname path).finalLocale,
       (afterInit env loc0 (py_main :: ws) fname path).wargv,
       (afterInit env loc0 (py_main :: ws) fname path).sysPath,
       .appendInittab :: (if hasExt then [Event.extendInittab] else []) ++
         ([.setLocaleEnv, .restoreLocale, .setProgramName py_main,
           .pyInitialize, .sysSetArgv (py_main :: ws)] ++
          (afterInit env loc0 (py_main :: ws) fname path).trace)⟩

/-- The entry point `pyqtdeploy_start` (source lines 54-232, Python 3 non-Android path):
install the frozen-module table, then run the body.  `bootstrapBlob` and
`mainBlob` are the frozen byte arrays from the generated headers; `hasExt`
is whether `extension_modules` is non-NULL; `path` is the optional extra
path-fragment list. -/
def pyqtdeploy_start (bootstrapBlob mainBlob : List Nat) (env : Env) (loc0 : String)
    (argv : List CStr) (py_main : WStr) (fname : String) (hasExt : Bool)
    (path : Option (List String)) : StartResult :=
  ⟨(startBody env loc0 argv py_main fname hasExt path).ret,
   (startBody env loc0 argv py_main fname hasExt path).finalLocale,
   (startBody env loc0 argv py_main fname hasExt path).wargv,
   (startBody env loc0 argv py_main fname hasExt path).sysPath,
   .installFrozen (modules bootstrapBlob mainBlob) ::
     (startBody env loc0 argv py_main fname hasExt path).trace⟩

/-- The Android per-byte escape (source lines 156-161): bytes up to `0x7f`
pass through, larger bytes map to `0xdc00 + byte` (PEP 383). -/
def android_escape_byte (b : Nat) : Nat :=
  if b ≤ 0x7f then b else 0xdc00 + b

/-- The value-level effect of the Android conversion loop on a whole
argument. -/
def android_convert (arg : CStr) : WStr :=
  arg.map android_escape_byte

/-- The reverse mapping stated by the specification: `0xdc00 + b` maps back
to `b` for escaped code points, identity otherwise. -/
def android_unescape_byte (c : Nat) : Nat :=
  if 0xdc00 + 0x80 ≤ c ∧ c ≤ 0xdc00 + 0xff then c - 0xdc00 else c

/-- The Android conversion loop viewed as writes into the allocated buffer
(`*w_arg++ = ...`, source lines 156-162): each byte overwrites one slot;
slots the loop never reaches keep their uninitialized contents (`none`). -/
def android_write : List Nat → List (Option Nat) → List (Option Nat)
  | [], buf => buf
  | _ :: _, [] => []
  | b :: rest, _ :: buf => some (android_escape_byte b) :: android_write rest buf

/-- Classifier for events that `setPathStage` and `afterInit` can emit. -/
def tailEvent : Event → Prop
  | .sysSetPath _ => True
  | .errPrint => True
  | .importFrozen _ => True
  | .finalize => True
  | _ => False

/-- Classifier for events emitted before `Py_SetProgramName`/`Py_Initialize`. -/
def preInitEvent : Event → Prop
  | .appendInittab => True
  | .extendInittab => True
  | .diag _ => True
  | .setLocaleEnv => True
  | _ => False

/-- An oracle under which every external call succeeds; `mbstowcs` maps each
byte to the code point of the same value. -/
def envOK : Env where
  appendInittabOk := true
  extendInittabOk := true
  wargvMallocOk := true
  mbsLen := fun a => some a.length
  argMallocOk := fun _ => true
  mbsConv := fun a => some a
  envLocale := "en_US.UTF-8"
  listNewOk := true
  minStrOk := fun _ => true
  minAppOk := fun _ => true
  extraStrOk := fun _ => true
  extraAppOk := fun _ => true
  sysSetPathOk := true
  addMainOk := true
  filenameStrOk := fun _ => true
  dictSetFileOk := true
  importMainOk := true

/-- As `envOK`, but `mbstowcs(NULL, arg, 0)` fails for every argument. -/
def envConvFail : Env := { envOK with mbsLen := fun _ => none }

/-- As `envOK`, but the wide-buffer allocation fails for argument index 1. -/
def envAllocFail1 : Env := { envOK with argMallocOk := fun k => !(k == 1) }

/-- The helper `append_strings` returns 0 or -1, never another value. -/
theorem append_strings_fst (fStr fApp : Nat → Bool) (v : List String) :
    ∀ (l : List String) (j : Nat),
      (append_strings fStr fApp l j v).fst = 0 ∨
        (append_strings fStr fApp l j v).fst = -1 := by
  induction v with
  | nil => intro l j; simp [append_strings]
  | cons a rest ih =>
    intro l j
    rw [append_strings]
    split
    · simp
    · split
      · simp
      · exact ih (l ++ [a]) (j + 1)

/-- On success, `append_strings` has appended every value in order and every
underlying call succeeded. -/
theorem append_strings_ok (fStr fApp : Nat → Bool) (v : List String) :
    ∀ (l : List String) (j : Nat),
      (append_strings fStr fApp l j v).fst = 0 →
      (append_strings fStr fApp l j v).snd = l ++ v ∧
        ∀ i, j ≤ i → i < j + v.length → fStr i = true ∧ fApp i = true := by
  induction v with
  | nil =>
    intro l j _
    refine ⟨by simp [append_strings], ?_⟩
    intro i h1 h2
    simp only [List.length_nil] at h2
    omega
  | cons a rest ih =>
    intro l j h
    rw [append_strings] at h ⊢
    split at h
    · simp at h
    · rename_i h1
      split at h
      · simp at h
      · rename_i h2
        have h1' : fStr j = true := by
          cases hb : fStr j
          · exact absurd hb h1
          · rfl
        have h2' : fApp j = true := by
          cases hb : fApp j
          · exact absurd hb h2
          · rfl
        obtain ⟨hsnd, hor⟩ := ih (l ++ [a]) (j + 1) h
        refine ⟨?_, ?_⟩
        · rw [if_neg h1, if_neg h2, hsnd]
          simp
        · intro i hi1 hi2
          rcases Nat.eq_or_lt_of_le hi1 with rfl | hlt
          · exact ⟨h1', h2'⟩
          · refine hor i (by omega) ?_
            simp only [List.length_cons] at hi2
            omega

/-- If every underlying call succeeds, `append_strings` succeeds and appends
every value. -/
theorem append_strings_all_ok (fStr fApp : Nat → Bool) (v : List String) :
    ∀ (l : List String) (j : Nat),
      (∀ i, j ≤ i → i < j + v.length → fStr i = true ∧ fApp i = true) →
      append_strings fStr fApp l j v = (0, l ++ v) := by
  induction v with
  | nil => intro l j _; simp [append_strings]
  | cons a rest ih =>
    intro l j hall
    have hj := hall j (Nat.le_refl j) (by simp)
    rw [append_strings, if_neg (by simp [hj.1]), if_neg (by simp [hj.2])]
    rw [ih (l ++ [a]) (j + 1)
          (fun i hi1 hi2 => hall i (by omega)
            (by simp only [List.length_cons]; omega))]
    simp

/-- If the calls succeed strictly before position `k` and fail at `k`, then
`append_strings` returns -1 with exactly the first `k - j` values appended. -/
theorem append_strings_fail (fStr fApp : Nat → Bool) (v : List String) :
    ∀ (l : List String) (j k : Nat), j ≤ k → k < j + v.length →
      (∀ i, j ≤ i → i < k → fStr i = true ∧ fApp i = true) →
      (fStr k = false ∨ fApp k = false) →
      append_strings fStr fApp l j v = (-1, l ++ v.take (k - j)) := by
  induction v with
  | nil =>
    intro l j k h1 h2 _ _
    simp only [List.length_nil] at h2
    omega
  | cons a rest ih =>
    intro l j k h1 h2 hall hfail
    rcases Nat.eq_or_lt_of_le h1 with rfl | hlt
    · rw [append_strings]
      rcases hfail with hf | hf
      · rw [if_pos hf]
        simp
      · cases hb : fStr j
        · simp
        · simp [hf]
    · have hj := hall j (Nat.le_refl j) hlt
      rw [append_strings, if_neg (by simp [hj.1]), if_neg (by simp [hj.2])]
      rw [ih (l ++ [a]) (j + 1) k (by omega)
            (by simp only [List.length_cons] at h2; omega)
            (fun i hi1 hi2 => hall i (by omega) hi2) hfail]
      have hk : k - j = (k - (j + 1)) + 1 := by omega
      rw [hk]
      simp

/-- On success, the conversion loop returns one wide string per argument, in
order, each equal to the `mbstowcs` conversion of the byte argument. -/
theorem convLoop_ok (env : Env) (args : List CStr) :
    ∀ (i : Nat) (ws : List WStr), convLoop env i args = Except.ok ws →
      ws.length = args.length ∧
        ∀ j, j < args.length → ws[j]? = env.mbsConv (args.getD j []) := by
  induction args with
  | nil =>
    intro i ws h
    rw [convLoop] at h
    injection h with h
    subst h
    simp
  | cons a rest ih =>
    intro i ws h
    rw [convLoop] at h
    cases hL : env.mbsLen a with
    | none => simp [hL] at h
    | some len =>
      simp only [hL] at h
      by_cases hM : env.argMallocOk i = false
      · rw [if_pos hM] at h
        exact absurd h (by simp)
      · rw [if_neg hM] at h
        cases hC : env.mbsConv a with
        | none => simp [hC] at h
        | some w =>
          simp only [hC] at h
          cases hR : convLoop env (i + 1) rest with
          | error msg => simp [hR] at h
          | ok ws' =>
            simp only [hR] at h
            injection h with h
            subst h
            obtain ⟨hlen, hval⟩ := ih (i + 1) ws' hR
            refine ⟨by simp [hlen], ?_⟩
            intro j hj
            cases j with
            | zero => simp [hC]
            | succ j' =>
              simp only [List.getElem?_cons_succ, List.getD_cons_succ]
              exact hval j' (by simp only [List.length_cons] at hj; omega)

/-- If the conversion loop succeeds, every in-range per-argument allocation
succeeded. -/
theorem convLoop_ok_alloc (env : Env) (args : List CStr) :
    ∀ (i : Nat) (ws : List WStr), convLoop env i args = Except.ok ws →
      ∀ k, i ≤ k → k < i + args.length → env.argMallocOk k = true := by
  induction args with
  | nil =>
    intro i ws _ k hk1 hk2
    simp only [List.length_nil] at hk2
    omega
  | cons a rest ih =>
    intro i ws h k hk1 hk2
    rw [convLoop] at h
    cases hL : env.mbsLen a with
    | none => simp [hL] at h
    | some len =>
      simp only [hL] at h
      by_cases hM : env.argMallocOk i = false
      · rw [if_pos hM] at h
        exact absurd h (by simp)
      · rw [if_neg hM] at h
        cases hC : env.mbsConv a with
        | none => simp [hC] at h
        | some w =>
          simp only [hC] at h
          cases hR : convLoop env (i + 1) rest with
          | error msg => simp [hR] at h
          | ok ws' =>
            rcases Nat.eq_or_lt_of_le hk1 with rfl | hlt
            · cases hb : env.argMallocOk i
              · exact absurd hb hM
              · rfl
            · refine ih (i + 1) ws' hR k (by omega) ?_
              simp only [List.length_cons] at hk2
              omega

/-- Every event emitted by `setPathStage` is a tail event. -/
theorem setPathStage_events (env : Env) (loc0 : String) (w : List WStr) (fname : String)
    (p : List String) : ∀ e ∈ (setPathStage env loc0 w fname p).trace, tailEvent e := by
  unfold setPathStage
  repeat' split
  all_goals intro e he
  all_goals fin_cases he <;> trivial

/-- Joint characterization of `setPathStage`: the argument vector and locale
pass through, the return code is 0 or 1, success is equivalent to reaching
finalization, every failure prints via `PyErr_Print`, the installed path is
exactly the list handed in, success requires the frozen `__main__` import to
have been attempted, and a failing import yields failure with a printed
error. -/
theorem setPathStage_spec (env : Env) (loc0 : String) (w : List WStr) (fname : String)
    (p : List String) :
    (setPathStage env loc0 w fname p).wargv = some w ∧
    (setPathStage env loc0 w fname p).finalLocale = loc0 ∧
    ((setPathStage env loc0 w fname p).ret = 0 ∨
      (setPathStage env loc0 w fname p).ret = 1) ∧
    ((setPathStage env loc0 w fname p).ret = 0 ↔
      Event.finalize ∈ (setPathStage env loc0 w fname p).trace) ∧
    ((setPathStage env loc0 w fname p).ret = 1 →
      Event.errPrint ∈ (setPathStage env loc0 w fname p).trace) ∧
    (∀ q, (setPathStage env loc0 w fname p).sysPath = some q → q = p) ∧
    (∀ q, Event.sysSetPath q ∈ (setPathStage env loc0 w fname p).trace → q = p) ∧
    ((setPathStage env loc0 w fname p).ret = 0 →
      Event.importFrozen "__main__" ∈ (setPathStage env loc0 w fname p).trace) ∧
    (Event.importFrozen "__main__" ∈ (setPathStage env loc0 w fname p).trace →
      env.importMainOk = false →
      (setPathStage env loc0 w fname p).ret = 1 ∧
        Event.errPrint ∈ (setPathStage env loc0 w fname p).trace) := by
  unfold setPathStage
  repeat' split
  all_goals simp_all

/-- Every event emitted by `afterInit` is a tail event. -/
theorem afterInit_events (env : Env) (loc0 : String) (w : List WStr) (fname : String)
    (path : Option (List String)) :
    ∀ e ∈ (afterInit env loc0 w fname path).trace, tailEvent e := by
  unfold afterInit
  repeat' split
  all_goals first
    | exact setPathStage_events _ _ _ _ _
    | (intro e he; fin_cases he <;> trivial)

/-- Joint characterization of `afterInit`: as `setPathStage_spec`, with the
installed path computed as the three fixed fragments followed by the
caller-supplied fragments. -/
theorem afterInit_spec (env : Env) (loc0 : String) (w : List WStr) (fname : String)
    (path : Option (List String)) :
    (afterInit env loc0 w fname path).wargv = some w ∧
    (afterInit env loc0 w fname path).finalLocale = loc0 ∧
    ((afterInit env loc0 w fname path).ret = 0 ∨
      (afterInit env loc0 w fname path).ret = 1) ∧
    ((afterInit env loc0 w fname path).ret = 0 ↔
      Event.finalize ∈ (afterInit env loc0 w fname path).trace) ∧
    ((afterInit env loc0 w fname path).ret = 1 →
      Event.errPrint ∈ (afterInit env loc0 w fname path).trace) ∧
    (∀ q, (afterInit env loc0 w fname path).sysPath = some q →
      q = minimal_path ++ path.getD []) ∧
    (∀ q, Event.sysSetPath q ∈ (afterInit env loc0 w fname path).trace →
      q = minimal_path ++ path.getD []) ∧
    ((afterInit env loc0 w fname path).ret = 0 →
      Event.importFrozen "__main__" ∈ (afterInit env loc0 w fname path).trace) ∧
    (Event.importFrozen "__main__" ∈ (afterInit env loc0 w fname path).trace →
      env.importMainOk = false →
      (afterInit env loc0 w fname path).ret = 1 ∧
        Event.errPrint ∈ (afterInit env loc0 w fname path).trace) := by
  unfold afterInit
  split
  · simp
  · split
    · simp
    · rename_i h0 h1
      have hm0 : (append_strings env.minStrOk env.minAppOk [] 0 minimal_path).fst = 0 := by
        rcases append_strings_fst env.minStrOk env.minAppOk minimal_path [] 0 with h | h
        · exact h
        · exact absurd (by rw [h]; norm_num) h1
      have hmsnd : (append_strings env.minStrOk env.minAppOk [] 0 minimal_path).snd
          = minimal_path := by
        have := (append_strings_ok env.minStrOk env.minAppOk minimal_path [] 0 hm0).1
        simpa using this
      split
      · rename_i extra
        split
        · simp
        · rename_i h2
          have he0 : (append_strings env.extraStrOk env.extraAppOk
              (append_strings env.minStrOk env.minAppOk [] 0 minimal_path).snd
              0 extra).fst = 0 := by
            rcases append_strings_fst env.extraStrOk env.extraAppOk extra
              (append_strings env.minStrOk env.minAppOk [] 0 minimal_path).snd 0 with h | h
            · exact h
            · exact absurd (by rw [h]; norm_num) h2
          have hesnd : (append_strings env.extraStrOk env.extraAppOk
              (append_strings env.minStrOk env.minAppOk [] 0 minimal_path).snd
              0 extra).snd = minimal_path ++ extra := by
            have := (append_strings_ok env.extraStrOk env.extraAppOk extra
              (append_strings env.minStrOk env.minAppOk [] 0 minimal_path).snd 0 he0).1
            rw [this, hmsnd]
          rw [hesnd]
          simpa using setPathStage_spec env loc0 w fname (minimal_path ++ extra)
      · rw [hmsnd]
        simpa using setPathStage_spec env loc0 w fname minimal_path

/-- Master branch analysis of `startBody`: either the conversion loop
succeeded and the result is `afterInit`'s result behind the initialization
events, or the run failed before `Py_SetProgramName`/`Py_Initialize` with
return code 1, no argument vector, a printed diagnostic, no locale restore,
and the final locale telling whether the failure happened inside the
conversion loop. -/
theorem startBody_cases (env : Env) (loc0 : String) (argv : List CStr) (py_main : WStr)
    (fname : String) (hasExt : Bool) (path : Option (List String)) :
    (∃ ws, convLoop env 1 argv.tail = Except.ok ws ∧
      (startBody env loc0 argv py_main fname hasExt path).ret
          = (afterInit env loc0 (py_main :: ws) fname path).ret ∧
      (startBody env loc0 argv py_main fname hasExt path).finalLocale
          = (afterInit env loc0 (py_main :: ws) fname path).finalLocale ∧
      (startBody env loc0 argv py_main fname hasExt path).wargv
          = (afterInit env loc0 (py_main :: ws) fname path).wargv ∧
      (startBody env loc0 argv py_main fname hasExt path).sysPath
          = (afterInit env loc0 (py_main :: ws) fname path).sysPath ∧
      (startBody env loc0 argv py_main fname hasExt path).trace
          = .appendInittab :: (if hasExt then [Event.extendInittab] else []) ++
              ([.setLocaleEnv, .restoreLocale, .setProgramName py_main,
                .pyInitialize, .sysSetArgv (py_main :: ws)] ++
               (afterInit env loc0 (py_main :: ws) fname path).trace)) ∨
    ((startBody env loc0 argv py_main fname hasExt path).ret = 1 ∧
     (startBody env loc0 argv py_main fname hasExt path).wargv = none ∧
     (startBody env loc0 argv py_main fname hasExt path).sysPath = none ∧
     (∀ e ∈ (startBody env loc0 argv py_main fname hasExt path).trace, preInitEvent e) ∧
     (∃ m, Event.diag m ∈ (startBody env loc0 argv py_main fname hasExt path).trace) ∧
     ((Event.setLocaleEnv ∈ (startBody env loc0 argv py_main fname hasExt path).trace ∧
        (startBody env loc0 argv py_main fname hasExt path).finalLocale = env.envLocale ∧
        (∃ m, convLoop env 1 argv.tail = Except.error m)) ∨
      (Event.setLocaleEnv ∉ (startBody env loc0 argv py_main fname hasExt path).trace ∧
        (startBody env loc0 argv py_main fname hasExt path).finalLocale = loc0))) := by
  unfold startBody
  split
  · right
    refine ⟨rfl, rfl, rfl, ?_, ⟨"PyImport_AppendInittab() failed\n", by simp⟩,
      Or.inr (by simp)⟩
    intro e he
    fin_cases he <;> trivial
  · split
    · right
      refine ⟨rfl, rfl, rfl, ?_, ⟨"PyImport_ExtendInittab() failed\n", by simp⟩,
        Or.inr (by simp)⟩
      intro e he
      fin_cases he <;> trivial
    · split
      · right
        refine ⟨rfl, rfl, rfl, ?_, ⟨"PyMem_Malloc() failed\n", by cases hasExt <;> simp⟩,
          Or.inr (by cases hasExt <;> simp)⟩
        intro e he
        cases hasExt
        · simp at he
          rcases he with rfl | rfl <;> trivial
        · simp at he
          rcases he with rfl | rfl | rfl <;> trivial
      · split
        · rename_i msg heq
          right
          refine ⟨rfl, rfl, rfl, ?_, ⟨msg, by cases hasExt <;> simp⟩,
            Or.inl ⟨by cases hasExt <;> simp, rfl, ⟨msg, heq⟩⟩⟩
          intro e he
          cases hasExt
          · simp at he
            rcases he with rfl | rfl | rfl <;> trivial
          · simp at he
            rcases he with rfl | rfl | rfl | rfl <;> trivial
        · rename_i ws heq
          exact Or.inl ⟨ws, heq, rfl, rfl, rfl, rfl, rfl⟩

/-- Unescaping an escaped byte recovers the byte. -/
theorem android_unescape_escape (b : Nat) (hb : b ≤ 0xff) :
    android_unescape_byte (android_escape_byte b) = b := by
  by_cases hb7 : b ≤ 0x7f
  · rw [android_escape_byte, if_pos hb7, android_unescape_byte, if_neg (by omega)]
  · rw [android_escape_byte, if_neg hb7, android_unescape_byte, if_pos (by omega)]
    omega

/-- Unescaping the Android conversion of a byte string recovers it. -/
theorem android_convert_roundtrip (B : List Nat) (hB : ∀ b ∈ B, b ≤ 0xff) :
    (android_convert B).map android_unescape_byte = B := by
  induction B with
  | nil => rfl
  | cons b rest ih =>
    simp only [android_convert, List.map_cons]
    rw [android_unescape_escape b (hB b (by simp))]
    have := ih (fun x hx => hB x (by simp [hx]))
    simpa [android_convert] using this

/-- C1: on the no-locale (Android) wide-character path, each byte in
[0,0x7F] is transcoded to the same code point and each byte in [0x80,0xFF]
to code point 0xDC00+byte, and applying the reverse mapping of the
specification to the transcoded output recovers the original byte string
exactly. -/
theorem C1_android_lossy_escape_roundtrip (B : List Nat) (hB : ∀ b ∈ B, b ≤ 0xff) :
    (∀ b, b ≤ 0x7f → android_escape_byte b = b) ∧
    (∀ b, 0x80 ≤ b → b ≤ 0xff → android_escape_byte b = 0xdc00 + b) ∧
    (android_convert B).map android_unescape_byte = B :=
  ⟨fun b hb => by rw [android_escape_byte, if_pos hb],
   fun b hb1 _ => by rw [android_escape_byte, if_neg (by omega)],
   android_convert_roundtrip B hB⟩

/-- Witness for C1 at a byte string covering both ranges. -/
theorem C1_android_lossy_escape_roundtrip_witness :
    (android_convert [0, 65, 127, 128, 200, 255]).map android_unescape_byte
      = [0, 65, 127, 128, 200, 255] :=
  (C1_android_lossy_escape_roundtrip [0, 65, 127, 128, 200, 255] (by decide)).2.2

/-- C9: on the Android path the buffer holds `L + 1` units for an argument of
byte length `L`, the loop writes exactly the `L` converted units, and the
final allocated slot is never written, so no terminating NUL unit is stored. -/
theorem C9_android_no_nul_terminator (arg : List Nat) :
    android_write arg (List.replicate (arg.length + 1) none)
        = arg.map (fun b => some (android_escape_byte b)) ++ [none] ∧
    (android_write arg (List.replicate (arg.length + 1) none)).length
        = arg.length + 1 ∧
    (android_write arg (List.replicate (arg.length + 1) none)).getLast? = some none := by
  have h : android_write arg (List.replicate (arg.length + 1) none)
      = arg.map (fun b => some (android_escape_byte b)) ++ [none] := by
    induction arg with
    | nil => rfl
    | cons b rest ih =>
      simp only [List.length_cons]
      rw [List.replicate_succ, android_write, ih]
      simp
  refine ⟨h, ?_, ?_⟩
  · rw [h]; simp
  · rw [h]; simp

/-- C10: `append_strings` is not atomic: it returns 0 or -1, returns 0 iff
every underlying call succeeded (in which case the list is the old list
followed by every value), and on the first failure at position `j` it
returns -1 with the list holding the old contents followed by exactly the
first `j` values. -/
theorem C10_append_strings_not_atomic (fStr fApp : Nat → Bool) (l v : List String) :
    ((append_strings fStr fApp l 0 v).fst = 0 ∨
      (append_strings fStr fApp l 0 v).fst = -1) ∧
    ((append_strings fStr fApp l 0 v).fst = 0 ↔
      ∀ j, j < v.length → fStr j = true ∧ fApp j = true) ∧
    ((append_strings fStr fApp l 0 v).fst = 0 →
      (append_strings fStr fApp l 0 v).snd = l ++ v) ∧
    (∀ j, j < v.length → (∀ i, i < j → fStr i = true ∧ fApp i = true) →
      (fStr j = false ∨ fApp j = false) →
      append_strings fStr fApp l 0 v = (-1, l ++ v.take j)) := by
  refine ⟨append_strings_fst fStr fApp v l 0, ⟨?_, ?_⟩,
    fun h => (append_strings_ok fStr fApp v l 0 h).1, ?_⟩
  · intro h j hj
    exact (append_strings_ok fStr fApp v l 0 h).2 j (Nat.zero_le j) (by omega)
  · intro hall
    rw [append_strings_all_ok fStr fApp v l 0
      (fun i _ hi2 => hall i (by omega))]
  · intro j hj hall hfail
    have := append_strings_fail fStr fApp v l 0 j (Nat.zero_le j) (by omega)
      (fun i _ hi2 => hall i hi2) hfail
    simpa using this

/-- Witness for C10: a failure at position 1 leaves exactly the first value
appended after the prior contents. -/
theorem C10_append_strings_not_atomic_witness :
    append_strings (fun j => !(j == 1)) (fun _ => true) ["p"] 0 ["x", "y", "z"]
      = (-1, ["p", "x"]) := by
  have h := (C10_append_strings_not_atomic (fun j => !(j == 1)) (fun _ => true)
    ["p"] ["x", "y", "z"]).2.2.2 1 (by decide) (by decide) (by decide)
  simpa using h

/-- C7: the entry point returns exactly 0 or 1; it returns 0 exactly when the
run reaches finalization, and every failure return is accompanied by a
diagnostic (an `fprintf(stderr, ...)` message or `PyErr_Print`). -/
theorem C7_return_codes (b m : List Nat) (env : Env) (loc0 : String) (argv : List CStr)
    (py_main : WStr) (fname : String) (hasExt : Bool) (path : Option (List String)) :
    ((pyqtdeploy_start b m env loc0 argv py_main fname hasExt path).ret = 0 ∨
      (pyqtdeploy_start b m env loc0 argv py_main fname hasExt path).ret = 1) ∧
    ((pyqtdeploy_start b m env loc0 argv py_main fname hasExt path).ret = 0 ↔
      Event.finalize ∈ (pyqtdeploy_start b m env loc0 argv py_main fname hasExt path).trace) ∧
    ((pyqtdeploy_start b m env loc0 argv py_main fname hasExt path).ret = 1 →
      (∃ msg, Event.diag msg
          ∈ (pyqtdeploy_start b m env loc0 argv py_main fname hasExt path).trace) ∨
        Event.errPrint
          ∈ (pyqtdeploy_start b m env loc0 argv py_main fname hasExt path).trace) := by
  rcases startBody_cases env loc0 argv py_main fname hasExt path with
    ⟨ws, hconv, hret, hloc, hwargv, hsys, htr⟩ |
    ⟨hret, hwargv, hsys, hpre, ⟨msg, hdiag⟩, hlocdisj⟩
  · obtain ⟨hw, hl, hr01, hfin, herr, hsp, hspev, himp, himpf⟩ :=
      afterInit_spec env loc0 (py_main :: ws) fname path
    refine ⟨?_, ?_, ?_⟩
    · simp only [pyqtdeploy_start]
      rw [hret]
      exact hr01
    · simp only [pyqtdeploy_start]
      rw [hret, htr, hfin]
      cases hasExt <;> simp
    · simp only [pyqtdeploy_start]
      rw [hret, htr]
      intro h1
      refine Or.inr ?_
      cases hasExt <;> simp [herr h1]
  · refine ⟨?_, ?_, ?_⟩
    · simp only [pyqtdeploy_start]
      rw [hret]
      exact Or.inr rfl
    · simp only [pyqtdeploy_start]
      rw [hret]
      constructor
      · intro h
        exact absurd h one_ne_zero
      · intro hmem
        exfalso
        simp only [List.mem_cons] at hmem
        rcases hmem with h | h
        · exact absurd h (by simp)
        · have := hpre _ h
          simp [preInitEvent] at this
    · intro _
      refine Or.inl ⟨msg, ?_⟩
      simp only [pyqtdeploy_start, List.mem_cons]
      exact Or.inr hdiag

/-- Witness for C7: a fully successful run returns 0. -/
theorem C7_return_codes_witness :
    (pyqtdeploy_start [] [] envOK "L" [[65]] [80] "f" false none).ret = 0 :=
  (C7_return_codes [] [] envOK "L" [[65]] [80] "f" false none).2.1.mpr (by decide)

/-- C5: the entry point never returns 0 without the frozen `__main__` import
having been attempted, and when that import is attempted and the runtime
fails it, the entry point returns 1 and reports via `PyErr_Print`. -/
theorem C5_frozen_main_import (b m : List Nat) (env : Env) (loc0 : String)
    (argv : List CStr) (py_main : WStr) (fname : String) (hasExt : Bool)
    (path : Option (List String)) :
    ((pyqtdeploy_start b m env loc0 argv py_main fname hasExt path).ret = 0 →
      Event.importFrozen "__main__"
        ∈ (pyqtdeploy_start b m env loc0 argv py_main fname hasExt path).trace) ∧
    (Event.importFrozen "__main__"
        ∈ (pyqtdeploy_start b m env loc0 argv py_main fname hasExt path).trace →
      env.importMainOk = false →
      (pyqtdeploy_start b m env loc0 argv py_main fname hasExt path).ret = 1 ∧
        Event.errPrint
          ∈ (pyqtdeploy_start b m env loc0 argv py_main fname hasExt path).trace) := by
  rcases startBody_cases env loc0 argv py_main fname hasExt path with
    ⟨ws, hconv, hret, hloc, hwargv, hsys, htr⟩ |
    ⟨hret, hwargv, hsys, hpre, hdiag, hlocdisj⟩
  · obtain ⟨hw, hl, hr01, hfin, herr, hsp, hspev, himp, himpf⟩ :=
      afterInit_spec env loc0 (py_main :: ws) fname path
    constructor
    · intro h0
      simp only [pyqtdeploy_start] at h0
      rw [hret] at h0
      have hmem := himp h0
      simp only [pyqtdeploy_start, List.mem_cons]
      refine Or.inr ?_
      rw [htr]
      cases hasExt <;> simp [hmem]
    · intro hmem hfail
      simp only [pyqtdeploy_start, List.mem_cons] at hmem
      rw [htr] at hmem
      have hmem' : Event.importFrozen "__main__"
          ∈ (afterInit env loc0 (py_main :: ws) fname path).trace := by
        cases hasExt <;> simpa using hmem
      obtain ⟨hr1, hep⟩ := himpf hmem' hfail
      constructor
      · simp only [pyqtdeploy_start]
        rw [hret]
        exact hr1
      · simp only [pyqtdeploy_start, List.mem_cons]
        refine Or.inr ?_
        rw [htr]
        cases hasExt <;> simp [hep]
  · constructor
    · intro h0
      simp only [pyqtdeploy_start] at h0
      rw [hret] at h0
      exact absurd h0 one_ne_zero
    · intro hmem _
      exfalso
      simp only [pyqtdeploy_start, List.mem_cons] at hmem
      rcases hmem with h | h
      · exact absurd h (by simp)
      · have := hpre _ h
        simp [preInitEvent] at this

/-- Witness for C5: in a successful run the import of `__main__` appears in
the trace. -/
theorem C5_frozen_main_import_witness :
    Event.importFrozen "__main__"
      ∈ (pyqtdeploy_start [] [] envOK "L" [[65]] [80] "f" false none).trace :=
  (C5_frozen_main_import [] [] envOK "L" [[65]] [80] "f" false none).1 (by decide)

/-- C6: if the per-argument buffer allocation fails at index `k ≥ 1`, the
entry point returns 1 and the trace contains no `Py_SetProgramName`, no
`Py_Initialize` and no `PySys_SetArgv` — no partial argument vector reaches
the runtime. -/
theorem C6_alloc_failure_before_init (b m : List Nat) (env : Env) (loc0 : String)
    (argv : List CStr) (py_main : WStr) (fname : String) (hasExt : Bool)
    (path : Option (List String)) (k : Nat) (hk1 : 1 ≤ k) (hk2 : k < argv.length)
    (hk3 : env.argMallocOk k = false) :
    (pyqtdeploy_start b m env loc0 argv py_main fname hasExt path).ret = 1 ∧
    Event.pyInitialize
      ∉ (pyqtdeploy_start b m env loc0 argv py_main fname hasExt path).trace ∧
    (∀ w, Event.setProgramName w
      ∉ (pyqtdeploy_start b m env loc0 argv py_main fname hasExt path).trace) ∧
    (∀ v, Event.sysSetArgv v
      ∉ (pyqtdeploy_start b m env loc0 argv py_main fname hasExt path).trace) := by
  rcases startBody_cases env loc0 argv py_main fname hasExt path with
    ⟨ws, hconv, hret, hloc, hwargv, hsys, htr⟩ |
    ⟨hret, hwargv, hsys, hpre, hdiag, hlocdisj⟩
  · exfalso
    have hall := convLoop_ok_alloc env argv.tail 1 ws hconv k hk1
      (by simp only [List.length_tail]; omega)
    rw [hk3] at hall
    exact Bool.noConfusion hall
  · refine ⟨?_, ?_, ?_, ?_⟩
    · simp only [pyqtdeploy_start]
      exact hret
    · intro hmem
      simp only [pyqtdeploy_start, List.mem_cons] at hmem
      rcases hmem with h | h
      · exact absurd h (by simp)
      · have := hpre _ h
        simp [preInitEvent] at this
    · intro w hmem
      simp only [pyqtdeploy_start, List.mem_cons] at hmem
      rcases hmem with h | h
      · exact absurd h (by simp)
      · have := hpre _ h
        simp [preInitEvent] at this
    · intro v hmem
      simp only [pyqtdeploy_start, List.mem_cons] at hmem
      rcases hmem with h | h
      · exact absurd h (by simp)
      · have := hpre _ h
        simp [preInitEvent] at this

/-- Witness for C6 at an allocation failure on argument index 1. -/
theorem C6_alloc_failure_before_init_witness :
    (pyqtdeploy_start [] [] envAllocFail1 "L" [[65], [66]] [80] "f" false none).ret = 1 :=
  (C6_alloc_failure_before_init [] [] envAllocFail1 "L" [[65], [66]] [80] "f"
    false none 1 (by decide) (by decide) (by decide)).1

/-- C3: when the transcoder completes (`wargv` produced), it yields exactly
one native string per host argument in order, slot 0 is the caller-supplied
`py_main`, slot `j ≥ 1` is the conversion of `argv[j]`, and the whole result
is independent of the content of the original argument 0. -/
theorem C3_transcoder_shape (b m : List Nat) (env : Env) (loc0 : String) (a0 : CStr)
    (rest : List CStr) (py_main : WStr) (fname : String) (hasExt : Bool)
    (path : Option (List String)) :
    (∀ w, (pyqtdeploy_start b m env loc0 (a0 :: rest) py_main fname hasExt path).wargv
        = some w →
      w.length = (a0 :: rest).length ∧ w.head? = some py_main ∧
      ∀ j, 0 < j → j < (a0 :: rest).length →
        w[j]? = env.mbsConv ((a0 :: rest).getD j [])) ∧
    (∀ a0' : CStr, pyqtdeploy_start b m env loc0 (a0' :: rest) py_main fname hasExt path
      = pyqtdeploy_start b m env loc0 (a0 :: rest) py_main fname hasExt path) := by
  constructor
  · intro w hw
    rcases startBody_cases env loc0 (a0 :: rest) py_main fname hasExt path with
      ⟨ws, hconv, hret, hloc, hwargv, hsys, htr⟩ |
      ⟨hret, hwargv, hsys, hpre, hdiag, hlocdisj⟩
    · obtain ⟨haw, _, _, _, _, _, _, _, _⟩ :=
        afterInit_spec env loc0 (py_main :: ws) fname path
      simp only [pyqtdeploy_start] at hw
      rw [hwargv, haw] at hw
      injection hw with hw
      subst hw
      simp only [List.tail_cons] at hconv
      obtain ⟨hlen, hval⟩ := convLoop_ok env rest 1 ws hconv
      refine ⟨by simp [hlen], rfl, ?_⟩
      intro j hj0 hjlen
      cases j with
      | zero => omega
      | succ j' =>
        simp only [List.getElem?_cons_succ, List.getD_cons_succ]
        refine hval j' ?_
        simp only [List.length_cons] at hjlen
        omega
    · simp only [pyqtdeploy_start] at hw
      rw [hwargv] at hw
      exact absurd hw (by simp)
  · intro a0'
    simp only [pyqtdeploy_start, startBody, List.tail_cons]

/-- Witness for C3: length preservation at a concrete two-argument vector. -/
theorem C3_transcoder_shape_witness :
    ([[80], [66]] : List WStr).length = ([[65], [66]] : List CStr).length :=
  ((C3_transcoder_shape [] [] envOK "L" [65] [[66]] [80] "f" false none).1
    [[80], [66]] (by decide)).1

/-- C4: whenever the module-search path is installed, it equals the three
fixed fragments followed by the caller-supplied fragments in order (empty
when the caller passed NULL), and in particular begins with the three fixed
fragments. -/
theorem C4_sys_path_contents (b m : List Nat) (env : Env) (loc0 : String)
    (argv : List CStr) (py_main : WStr) (fname : String) (hasExt : Bool)
    (path : Option (List String)) :
    ∀ p, (pyqtdeploy_start b m env loc0 argv py_main fname hasExt path).sysPath
        = some p →
      p = minimal_path ++ path.getD [] ∧ p.take 3 = minimal_path := by
  intro p hp
  rcases startBody_cases env loc0 argv py_main fname hasExt path with
    ⟨ws, hconv, hret, hloc, hwargv, hsys, htr⟩ |
    ⟨hret, hwargv, hsys, hpre, hdiag, hlocdisj⟩
  · obtain ⟨_, _, _, _, _, hsp, _, _, _⟩ :=
      afterInit_spec env loc0 (py_main :: ws) fname path
    simp only [pyqtdeploy_start] at hp
    rw [hsys] at hp
    have hpe := hsp p hp
    refine ⟨hpe, ?_⟩
    rw [hpe]
    rfl
  · simp only [pyqtdeploy_start] at hp
    rw [hsys] at hp
    exact absurd hp (by simp)

/-- Witness for C4 at the caller list of the specification's scenario. -/
theorem C4_sys_path_contents_witness :
    ([":/", ":/stdlib", ":/site-packages", "/extra/one", "/extra/two"] : List String)
      = minimal_path ++ (some ["/extra/one", "/extra/two"]).getD [] :=
  (C4_sys_path_contents [] [] envOK "L" [[65]] [80] "f" false
    (some ["/extra/one", "/extra/two"])
    [":/", ":/stdlib", ":/site-packages", "/extra/one", "/extra/two"] (by decide)).1

/-- C2 counterexample: the claim that the locale is restored on every exit
path fails.  With a conversion-length failure on argument 1, the entry point
returns from inside the conversion loop with the switched environment-default
locale, not the entry locale. -/
theorem C2_locale_counterexample :
    (pyqtdeploy_start [] [] envConvFail "LC0" [[65], [66]] [80] "f" false none).ret = 1 ∧
    (pyqtdeploy_start [] [] envConvFail "LC0" [[65], [66]] [80] "f" false none).finalLocale
      = "en_US.UTF-8" ∧
    (pyqtdeploy_start [] [] envConvFail "LC0" [[65], [66]] [80] "f" false none).finalLocale
      ≠ "LC0" := by
  decide

/-- C2 amended: the locale is switched before the conversions and restored
right after the conversion loop, so every return after a completed loop sees
the entry locale; but the early failure returns inside the loop leave the
switched environment-default locale in effect. -/
theorem C2_locale_restore (b m : List Nat) (env : Env) (loc0 : String)
    (argv : List CStr) (py_main : WStr) (fname : String) (hasExt : Bool)
    (path : Option (List String)) :
    (Event.restoreLocale
        ∈ (pyqtdeploy_start b m env loc0 argv py_main fname hasExt path).trace →
      (pyqtdeploy_start b m env loc0 argv py_main fname hasExt path).finalLocale = loc0) ∧
    (Event.setLocaleEnv
        ∉ (pyqtdeploy_start b m env loc0 argv py_main fname hasExt path).trace →
      (pyqtdeploy_start b m env loc0 argv py_main fname hasExt path).finalLocale = loc0) ∧
    (Event.setLocaleEnv
        ∈ (pyqtdeploy_start b m env loc0 argv py_main fname hasExt path).trace →
      Event.restoreLocale
        ∉ (pyqtdeploy_start b m env loc0 argv py_main fname hasExt path).trace →
      (pyqtdeploy_start b m env loc0 argv py_main fname hasExt path).finalLocale
          = env.envLocale ∧
        (pyqtdeploy_start b m env loc0 argv py_main fname hasExt path).ret = 1) := by
  rcases startBody_cases env loc0 argv py_main fname hasExt path with
    ⟨ws, hconv, hret, hloc, hwargv, hsys, htr⟩ |
    ⟨hret, hwargv, hsys, hpre, hdiag, hlocdisj⟩
  · obtain ⟨_, hl, _, _, _, _, _, _, _⟩ :=
      afterInit_spec env loc0 (py_main :: ws) fname path
    refine ⟨?_, ?_, ?_⟩
    · intro _
      simp only [pyqtdeploy_start]
      rw [hloc, hl]
    · intro hnot
      exfalso
      apply hnot
      simp only [pyqtdeploy_start, List.mem_cons]
      refine Or.inr ?_
      rw [htr]
      cases hasExt <;> simp
    · intro _ hnot
      exfalso
      apply hnot
      simp only [pyqtdeploy_start, List.mem_cons]
      refine Or.inr ?_
      rw [htr]
      cases hasExt <;> simp
  · rcases hlocdisj with ⟨hin, hfl, _⟩ | ⟨hnotin, hfl⟩
    · refine ⟨?_, ?_, ?_⟩
      · intro hrest
        exfalso
        simp only [pyqtdeploy_start, List.mem_cons] at hrest
        rcases hrest with h | h
        · exact absurd h (by simp)
        · have := hpre _ h
          simp [preInitEvent] at this
      · intro hnot
        exfalso
        apply hnot
        simp only [pyqtdeploy_start, List.mem_cons]
        exact Or.inr hin
      · intro _ _
        constructor
        · simp only [pyqtdeploy_start]
          exact hfl
        · simp only [pyqtdeploy_start]
          exact hret
    · refine ⟨?_, ?_, ?_⟩
      · intro hrest
        exfalso
        simp only [pyqtdeploy_start, List.mem_cons] at hrest
        rcases hrest with h | h
        · exact absurd h (by simp)
        · have := hpre _ h
          simp [preInitEvent] at this
      · intro _
        simp only [pyqtdeploy_start]
        exact hfl
      · intro hin _
        exfalso
        simp only [pyqtdeploy_start, List.mem_cons] at hin
        rcases hin with h | h
        · exact absurd h (by simp)
        · exact hnotin h

/-- Witness for C2 amended: after a completed conversion loop the final
locale is the entry locale. -/
theorem C2_locale_restore_witness :
    (pyqtdeploy_start [] [] envOK "LC0" [[65], [66]] [80] "f" false none).finalLocale
      = "LC0" :=
  (C2_locale_restore [] [] envOK "LC0" [[65], [66]] [80] "f" false none).1 (by decide)

/-- No run of the body ever emits a frozen-table installation event: the
single installation is the one at entry. -/
theorem startBody_no_install (env : Env) (loc0 : String) (argv : List CStr)
    (py_main : WStr) (fname : String) (hasExt : Bool) (path : Option (List String)) :
    ∀ t, Event.installFrozen t
      ∉ (startBody env loc0 argv py_main fname hasExt path).trace := by
  intro t hmem
  rcases startBody_cases env loc0 argv py_main fname hasExt path with
    ⟨ws, hconv, hret, hloc, hwargv, hsys, htr⟩ |
    ⟨hret, hwargv, hsys, hpre, hdiag, hlocdisj⟩
  · rw [htr] at hmem
    have hmem' : Event.installFrozen t
        ∈ (afterInit env loc0 (py_main :: ws) fname path).trace := by
      cases hasExt <;> simpa using hmem
    have := afterInit_events env loc0 (py_main :: ws) fname path _ hmem'
    simp [tailEvent] at this
  · have := hpre _ hmem
    simp [preInitEvent] at this

/-- C8: the frozen-module table holds exactly the two named entries
`_frozen_importlib` and `__main__` (distinct names) followed by the final
sentinel, it is installed exactly once, and every installation event carries
this table — it is never replaced after installation. -/
theorem C8_frozen_table (b m : List Nat) (env : Env) (loc0 : String)
    (argv : List CStr) (py_main : WStr) (fname : String) (hasExt : Bool)
    (path : Option (List String)) :
    (pyqtdeploy_start b m env loc0 argv py_main fname hasExt path).trace.count
        (Event.installFrozen (modules b m)) = 1 ∧
    (∀ t, Event.installFrozen t
        ∈ (pyqtdeploy_start b m env loc0 argv py_main fname hasExt path).trace →
      t = modules b m) ∧
    (modules b m).map FrozenEntry.name
      = [some "_frozen_importlib", some "__main__", none] ∧
    (some "_frozen_importlib" : Option String) ≠ some "__main__" ∧
    (modules b m).getLast? = some ⟨none, none, 0⟩ := by
  refine ⟨?_, ?_, rfl, by simp, rfl⟩
  · simp only [pyqtdeploy_start, List.count_cons]
    rw [List.count_eq_zero.mpr
      (startBody_no_install env loc0 argv py_main fname hasExt path _)]
    simp
  · intro t ht
    simp only [pyqtdeploy_start, List.mem_cons] at ht
    rcases ht with h | h
    · injection h with h
    · exact absurd h (startBody_no_install env loc0 argv py_main fname hasExt path t)

/-- Witness for C8: the table's named entries at concrete blobs. -/
theorem C8_frozen_table_witness :
    (modules [1] [2]).map FrozenEntry.name
      = [some "_frozen_importlib", some "__main__", none] :=
  (C8_frozen_table [1] [2] envOK "L" [[65]] [80] "f" false none).2.2.1

end PyQtDeploy
